import Mathlib

/-!
# Verification of the TinyFloat decimal arithmetic library

This file is a shallow embedding of `src/index.ts` of the `tinyfloat`
package: a decimal class that stores a number as a BigInt multiplied by
`10 ^ (precision + 1)` (the extra digit handles rounding), together with
proofs of the behavioural properties claimed for it.

Modelling conventions:
* JS `bigint` becomes `Int`; JS BigInt `/` and `%` truncate toward zero,
  hence `Int.tdiv` / `Int.tmod`.
* The source computes scale factors as `BigInt(10 ** n)`, a float64
  exponentiation fed to `BigInt`. This is modelled by `jsPow10`: the
  binary64 value of `10 ^ n` rounded to nearest, ties to even — exact
  for `n ≤ 22`, off by up to one part in `2 ^ 53` for `23 ≤ n ≤ 308`
  (`BigInt(10 ** 23)` is `99999999999999991611392`), and `Infinity` from
  `n = 309` on, where `BigInt` throws a `RangeError`, modelled as `none`.
  (The exact BigInt power `10n ** BigInt(n)` appears only in `toString`,
  where the source uses BigInt exponentiation.)
* Code that throws (the `BigInt` constructor on a malformed numeral or a
  non-integral float, BigInt division or remainder by zero) returns
  `Option`, with `none` for the thrown error, so every operation that can
  throw — `transpose`, `withPresicion`, the arithmetic methods, and
  `toString` — is `Option`-valued.
* JS strings become Lean `String`s; helpers `padStart` and `strTake`
  model `String.prototype.padStart` and `.slice(0, n)`.
-/

/-- Whitespace stripped by the JS `BigInt(string)` constructor (the common
subset relevant here: space, tab, newline, carriage return). -/
def isJsWs (c : Char) : Bool :=
  c = ' ' || c = '\t' || c = '\n' || c = '\r'

/-- Trim leading and trailing whitespace, as `BigInt(string)` does. -/
def trimWs (l : List Char) : List Char :=
  ((l.dropWhile isJsWs).reverse.dropWhile isJsWs).reverse

/-- Numeric value of a decimal digit character. -/
def decDigitVal (c : Char) : Nat := c.toNat - 48

/-- Accumulating evaluation of a run of decimal digits; `none` on any
non-digit character. -/
def decValGo : Nat → List Char → Option Nat
  | acc, [] => some acc
  | acc, c :: cs =>
      if '0' ≤ c ∧ c ≤ '9' then decValGo (acc * 10 + decDigitVal c) cs else none

/-- Value of a nonempty all-digit run; `none` otherwise. -/
def decVal (l : List Char) : Option Nat :=
  if l.isEmpty then none else decValGo 0 l

/-- Numeric value of a hexadecimal digit character, if any. -/
def radixDigitVal (c : Char) : Option Nat :=
  if '0' ≤ c ∧ c ≤ '9' then some (c.toNat - 48)
  else if 'a' ≤ c ∧ c ≤ 'f' then some (c.toNat - 87)
  else if 'A' ≤ c ∧ c ≤ 'F' then some (c.toNat - 55)
  else none

/-- Accumulating evaluation of a digit run in a given radix. -/
def radixValGo (radix : Nat) : Nat → List Char → Option Nat
  | acc, [] => some acc
  | acc, c :: cs =>
      match radixDigitVal c with
      | some d => if d < radix then radixValGo radix (acc * radix + d) cs else none
      | none => none

/-- Value of a nonempty digit run in a given radix; `none` otherwise. -/
def radixVal (radix : Nat) (l : List Char) : Option Nat :=
  if l.isEmpty then none else radixValGo radix 0 l

/-- Model of the JS `BigInt(string)` constructor (`StringToBigInt`): after
trimming whitespace, an empty string yields `0`; an optionally signed
nonempty run of decimal digits yields its value; `0x` / `0o` / `0b`
prefixed unsigned numerals parse in the corresponding radix; anything
else throws a `SyntaxError`, modelled as `none`. -/
def jsBigInt (s : String) : Option Int :=
  let l := trimWs s.data
  if l.isEmpty then some 0
  else if l.head? = some '-' then (decVal l.tail).map fun n => -(n : Int)
  else if l.head? = some '+' then (decVal l.tail).map fun n => (n : Int)
  else if l.take 2 = ['0', 'x'] || l.take 2 = ['0', 'X'] then
    (radixVal 16 (l.drop 2)).map fun n => (n : Int)
  else if l.take 2 = ['0', 'o'] || l.take 2 = ['0', 'O'] then
    (radixVal 8 (l.drop 2)).map fun n => (n : Int)
  else if l.take 2 = ['0', 'b'] || l.take 2 = ['0', 'B'] then
    (radixVal 2 (l.drop 2)).map fun n => (n : Int)
  else (decVal l).map fun n => (n : Int)

/-- `String.prototype.padStart(n, c)`: left-pad to length `n` with `c`. -/
def padStart (s : String) (n : Nat) (c : Char) : String :=
  ⟨List.replicate (n - s.data.length) c ++ s.data⟩

/-- `String.prototype.slice(0, n)`: the first `n` characters. -/
def strTake (s : String) (n : Nat) : String := ⟨s.data.take n⟩

/-- Decimal digits of a natural number, most significant first, by
structural recursion on a fuel bound; models `BigInt.prototype.toString`
on nonnegative values. `n + 1` units of fuel always suffice for `n`. -/
def natDigitsAux : Nat → Nat → List Char
  | 0, _ => []
  | fuel + 1, n =>
      if n < 10 then [Nat.digitChar n]
      else natDigitsAux fuel (n / 10) ++ [Nat.digitChar (n % 10)]

/-- Decimal string of a natural number (`BigInt.prototype.toString`). -/
def natStr (n : Nat) : String := ⟨natDigitsAux (n + 1) n⟩

/-- The TinyFloat decimal value (the class's two private fields): `int` is
the BigInt representation, the number multiplied by `10 ^ (precision + 1)`,
and `precision` is the number of digits after the decimal point to keep. -/
structure TinyFloat where
  int : Int
  precision : Nat
deriving DecidableEq

/-- The default precision (`TinyFloat.defaultPrecision`). -/
def TinyFloat.defaultPrecision : Nat := 16

/-- The static `TinyFloat.parse(str, precision)`: splits the string at the
first `.`, keeps at most `precision + 1` fractional digits, right-pads
with zeros to exactly `precision + 1`, concatenates and feeds the result
to the BigInt constructor. -/
def TinyFloat.parse (str : String) (precision : Nat) : Option Int :=
  let digits := precision + 1
  match str.data.findIdx? (fun c => c = '.') with
  | none => jsBigInt ⟨str.data ++ List.replicate digits '0'⟩
  | some point =>
      let intPart := str.data.take point
      let floatPart := (str.data.drop (point + 1)).take digits
      jsBigInt ⟨intPart ++ floatPart ++ List.replicate (digits - floatPart.length) '0'⟩

/-- The `TinyFloat` constructor on a string argument and explicit
precision: a falsy (empty) string yields zero; otherwise the string is
parsed (`none` when the BigInt constructor throws). -/
def TinyFloat.ofString (str : String) (precision : Nat) : Option TinyFloat :=
  if str.isEmpty then some ⟨0, precision⟩
  else (TinyFloat.parse str precision).map fun i => ⟨i, precision⟩

/-- The one-argument constructor, using the default precision. -/
def TinyFloat.ofStringD (str : String) : Option TinyFloat :=
  TinyFloat.ofString str TinyFloat.defaultPrecision

/-- Round `x` to the nearest multiple of `ulp`, ties to the even
multiple — the IEEE-754 binary64 rounding rule. -/
def roundHalfEven (x ulp : Nat) : Nat :=
  let q := x / ulp
  let r := x % ulp
  if 2 * r < ulp then q * ulp
  else if ulp < 2 * r then (q + 1) * ulp
  else (if q % 2 = 0 then q else q + 1) * ulp

/-- Floor of the base-2 logarithm, by structural recursion on a fuel
bound (`n` units of fuel always suffice for `n`). -/
def natLog2F : Nat → Nat → Nat
  | 0, _ => 0
  | fuel + 1, n => if 2 ≤ n then natLog2F fuel (n / 2) + 1 else 0

/-- Floor of the base-2 logarithm. -/
def natLog2 (n : Nat) : Nat := natLog2F n n

/-- Model of `BigInt(10 ** n)` as the source writes it: `10 ** n` is the
float64 nearest `10 ^ n` (ties to even), an exact power only for
`n ≤ 22`; a binary64 significand holds 53 bits, so the result is `10 ^ n`
rounded to a multiple of `2 ^ (exponent - 52)`. From `n = 309` the float
overflows to `Infinity` and `BigInt` throws a `RangeError` (`none`). For
`n ≤ 308` the float is an integral double, so `BigInt` succeeds. -/
def jsPow10 (n : Nat) : Option Int :=
  if n ≤ 308 then
    some ((roundHalfEven (10 ^ n) (2 ^ (natLog2 (10 ^ n) - 52)) : Nat) : Int)
  else none

/-- `transpose(precision)`: rescale the BigInt representation to another
precision. `tf.precision - precision + (precision - tf.precision)` is
`Math.abs` of the difference, written with truncated `Nat` subtraction;
the scale factor is `BigInt(10 ** gap)`, which can throw (`none`). -/
def TinyFloat.transpose (tf : TinyFloat) (precision : Nat) : Option Int :=
  if precision = tf.precision then some tf.int
  else
    (jsPow10 (tf.precision - precision + (precision - tf.precision))).map fun pow =>
      if precision < tf.precision then Int.tdiv tf.int pow else tf.int * pow

/-- The unsigned part of `toString` (everything computed from `absInt`):
round half-up on the guard digit of the absolute value, split into integer
and fractional parts, left-pad the fractional part to `precision + 1`
digits and drop the guard digit. -/
def absRender (absInt : Nat) (precisionToUse : Nat) : String :=
  let pow : Nat := 10 ^ (precisionToUse + 1)
  let paddedFloatPart := absInt % pow
  let rounding : Nat := if paddedFloatPart % 10 ≥ 5 then 10 else 0
  let adjustedInt := absInt + rounding
  let intPart := adjustedInt / pow
  let floatPart := adjustedInt % pow
  natStr intPart ++ "." ++
    strTake (padStart (natStr floatPart) (precisionToUse + 1) '0') precisionToUse

/-- The pure rendering of a transposed BigInt: prefix `-` exactly when it
is negative and render the absolute value (`toString` after the
`transpose` call). -/
def renderSigned (int : Int) (precisionToUse : Nat) : String :=
  (if int < 0 then "-" else "") ++ absRender int.natAbs precisionToUse

/-- `toString(precision)` with an explicit precision argument: transpose
to that precision (which can throw for a huge precision gap), then prefix
the sign and render the absolute value. -/
def TinyFloat.toStringWith (tf : TinyFloat) (precisionToUse : Nat) : Option String :=
  (tf.transpose precisionToUse).map fun int => renderSigned int precisionToUse

/-- `toString()` with the argument omitted: uses the instance precision. -/
def TinyFloat.toStr (tf : TinyFloat) : Option String := tf.toStringWith tf.precision

/-- `withPresicion(precision)` (the source's spelling): same precision
returns the instance itself, otherwise the transposed BigInt at the new
precision (propagating a thrown `RangeError` as `none`). -/
def TinyFloat.withPresicion (tf : TinyFloat) (precision : Nat) : Option TinyFloat :=
  if tf.precision = precision then some tf
  else (tf.transpose precision).map fun i => ⟨i, precision⟩

/-- `argument(tf)` for a `TinyFloat` operand: convert it to the receiver's
precision and take its BigInt representation. -/
def TinyFloat.argument (a : TinyFloat) (tf : TinyFloat) : Option Int :=
  (tf.withPresicion a.precision).map fun b => b.int

/-- `add`: BigInt sum at the receiver's precision. -/
def TinyFloat.add (a : TinyFloat) (tf : TinyFloat) : Option TinyFloat :=
  (a.argument tf).map fun x => ⟨a.int + x, a.precision⟩

/-- `sub`: BigInt difference at the receiver's precision. -/
def TinyFloat.sub (a : TinyFloat) (tf : TinyFloat) : Option TinyFloat :=
  (a.argument tf).map fun x => ⟨a.int - x, a.precision⟩

/-- `mul`: BigInt product divided by `BigInt(10 ** (precision + 1))`
(truncated, as JS BigInt division is); the operand conversion is
evaluated before the scale factor, either throw surfacing as `none`. -/
def TinyFloat.mul (a : TinyFloat) (tf : TinyFloat) : Option TinyFloat :=
  (a.argument tf).bind fun x =>
    (jsPow10 (a.precision + 1)).map fun pow =>
      ⟨Int.tdiv (a.int * x) pow, a.precision⟩

/-- `div`: receiver BigInt scaled by `BigInt(10 ** (precision + 1))` and
divided by the operand's BigInt; the scale factor is evaluated before the
operand conversion, and BigInt division by `0n` throws a `RangeError`
(`none`). -/
def TinyFloat.div (a : TinyFloat) (tf : TinyFloat) : Option TinyFloat :=
  (jsPow10 (a.precision + 1)).bind fun pow =>
    (a.argument tf).bind fun d =>
      if d = 0 then none else some ⟨Int.tdiv (a.int * pow) d, a.precision⟩

/-- `mod`: BigInt remainder (sign of the dividend, as JS `%`). JS BigInt
remainder by `0n` throws a `RangeError`, modelled as `none`. -/
def TinyFloat.mod (a : TinyFloat) (tf : TinyFloat) : Option TinyFloat :=
  (a.argument tf).bind fun d =>
    if d = 0 then none else some ⟨Int.tmod a.int d, a.precision⟩

/-- The rational number a TinyFloat instance denotes:
`int / 10 ^ (precision + 1)`. -/
def TinyFloat.val (tf : TinyFloat) : ℚ := (tf.int : ℚ) / 10 ^ (tf.precision + 1)

/-- Value of a digit list, reading non-digit characters as 0; helper for
interpreting rendered decimal strings. -/
def decValD : Nat → List Char → Nat
  | acc, [] => acc
  | acc, c :: cs =>
      decValD (acc * 10 + (if '0' ≤ c ∧ c ≤ '9' then decDigitVal c else 0)) cs

/-- Numerator of an unsigned rendered decimal string (digits, optionally a
point, more digits), over denominator `decListDen`. -/
def decListNum (l : List Char) : Nat :=
  let intPart := l.takeWhile (fun c => c ≠ '.')
  let fracPart := (l.dropWhile (fun c => c ≠ '.')).drop 1
  decValD 0 intPart * 10 ^ fracPart.length + decValD 0 fracPart

/-- Denominator of an unsigned rendered decimal string: ten to the number
of digits after the point. -/
def decListDen (l : List Char) : Nat :=
  10 ^ ((l.dropWhile (fun c => c ≠ '.')).drop 1).length

/-- Exact rational value of a rendered decimal string with optional sign.
`parseFloat` maps a decimal string to the float64 nearest this rational,
so strings with equal `decStringToRat` values parse to equal numbers. -/
def decStringToRat (s : String) : ℚ :=
  if s.data.head? = some '-' then
    -((decListNum s.data.tail : ℚ) / (decListDen s.data.tail : ℚ))
  else (decListNum s.data : ℚ) / (decListDen s.data : ℚ)

/-! ## Helper lemmas -/

theorem strData_append (a b : String) : (a ++ b).data = a.data ++ b.data := rfl

theorem dropWhile_eq_self_of_all {p : Char → Bool} {l : List Char}
    (h : ∀ c ∈ l, p c = false) : l.dropWhile p = l := by
  cases l with
  | nil => rfl
  | cons c cs => simp [List.dropWhile_cons, h c (List.mem_cons_self c cs)]

theorem trimWs_eq_self {l : List Char} (h : ∀ c ∈ l, isJsWs c = false) :
    trimWs l = l := by
  unfold trimWs
  rw [dropWhile_eq_self_of_all h, dropWhile_eq_self_of_all, List.reverse_reverse]
  intro c hc
  exact h c (List.mem_reverse.mp hc)

theorem decValGo_replicate_zero (k acc : Nat) :
    decValGo acc (List.replicate k '0') = some (acc * 10 ^ k) := by
  induction k generalizing acc with
  | zero => simp [decValGo]
  | succ n ih =>
      rw [List.replicate_succ]
      show decValGo acc ('0' :: List.replicate n '0') = some (acc * 10 ^ (n + 1))
      rw [decValGo, if_pos (by decide)]
      rw [ih, show decDigitVal '0' = 0 from by decide]
      congr 1
      ring

theorem decValD_replicate_zero (k acc : Nat) :
    decValD acc (List.replicate k '0') = acc * 10 ^ k := by
  induction k generalizing acc with
  | zero => simp [decValD]
  | succ n ih =>
      rw [List.replicate_succ]
      show decValD (acc * 10 + (if '0' ≤ '0' ∧ '0' ≤ '9' then decDigitVal '0' else 0))
            (List.replicate n '0') = acc * 10 ^ (n + 1)
      rw [if_pos (by decide), ih, show decDigitVal '0' = 0 from by decide]
      ring

theorem digitChar_isDigit {m : Nat} (h : m < 10) : (Nat.digitChar m).isDigit = true := by
  interval_cases m <;> decide

theorem natDigitsAux_isDigit {fuel n : Nat} {c : Char}
    (h : c ∈ natDigitsAux fuel n) : c.isDigit = true := by
  induction fuel generalizing n with
  | zero => simp [natDigitsAux] at h
  | succ f ih =>
      rw [natDigitsAux] at h
      by_cases h10 : n < 10
      · rw [if_pos h10] at h
        rcases List.mem_singleton.mp h with rfl
        exact digitChar_isDigit h10
      · rw [if_neg h10] at h
        rcases List.mem_append.mp h with h1 | h2
        · exact ih h1
        · rcases List.mem_singleton.mp h2 with rfl
          exact digitChar_isDigit (Nat.mod_lt n (by omega))

theorem natStr_isDigit {n : Nat} {c : Char} (h : c ∈ (natStr n).data) :
    c.isDigit = true := natDigitsAux_isDigit h

/-- Every character of the unsigned rendering is a digit or the point. -/
theorem absRender_chars {a p : Nat} {c : Char} (h : c ∈ (absRender a p).data) :
    c.isDigit = true ∨ c = '.' := by
  unfold absRender at h
  rw [strData_append, strData_append] at h
  rcases List.mem_append.mp h with h1 | h2
  · rcases List.mem_append.mp h1 with h3 | h4
    · exact Or.inl (natStr_isDigit h3)
    · exact Or.inr (List.mem_singleton.mp h4)
  · left
    have h5 := List.take_subset _ _ h2
    unfold padStart at h5
    rcases List.mem_append.mp h5 with h6 | h7
    · have := List.eq_of_mem_replicate h6
      subst this; decide
    · exact natStr_isDigit h7

theorem absRender_head_ne_neg (a p : Nat) :
    ¬ (absRender a p).data.head? = some '-' := by
  intro h
  have hm : '-' ∈ (absRender a p).data :=
    List.mem_of_mem_head? (Option.mem_def.mpr h)
  rcases absRender_chars hm with h1 | h2 <;> simp_all

/-- `decStringToRat` of an unsigned rendering takes the unsigned branch. -/
theorem decStringToRat_absRender (a p : Nat) :
    decStringToRat (absRender a p)
      = (decListNum (absRender a p).data : ℚ) / (decListDen (absRender a p).data : ℚ) := by
  unfold decStringToRat
  rw [if_neg (absRender_head_ne_neg a p)]

/-- `decStringToRat` of `"-"` before an unsigned rendering negates it. -/
theorem decStringToRat_neg_absRender (a p : Nat) :
    decStringToRat ("-" ++ absRender a p) = -decStringToRat (absRender a p) := by
  unfold decStringToRat
  rw [if_neg (absRender_head_ne_neg a p)]
  rw [show ("-" ++ absRender a p).data = '-' :: (absRender a p).data from rfl]
  simp only [List.head?_cons, List.tail_cons]
  simp

theorem jsPow10_small {n : Nat} (h : n ≤ 22) : jsPow10 n = some ((10 : Int) ^ n) := by
  interval_cases n <;> decide

theorem jsPow10_none {n : Nat} (h : 309 ≤ n) : jsPow10 n = none := by
  unfold jsPow10
  rw [if_neg (by omega)]

theorem transpose_self (tf : TinyFloat) : tf.transpose tf.precision = some tf.int := by
  unfold TinyFloat.transpose
  rw [if_pos rfl]

/-- Transposing a zero magnitude either throws (a gap of 309 or more) or
yields zero. -/
theorem transpose_of_int_zero (tf : TinyFloat) (p : Nat) (h : tf.int = 0) :
    tf.transpose p = none ∨ tf.transpose p = some 0 := by
  unfold TinyFloat.transpose
  rw [h]
  split
  · right
    rfl
  · cases hj : jsPow10 (tf.precision - p + (p - tf.precision)) with
    | none => left; rfl
    | some pow =>
        right
        split
        · exact congrArg some (Int.zero_tdiv pow)
        · exact congrArg some (zero_mul pow)

/-- Negating the magnitude negates the transposed magnitude (or throws in
both cases alike). -/
theorem transpose_neg (i : Int) (q p : Nat) :
    TinyFloat.transpose ⟨-i, q⟩ p = (TinyFloat.transpose ⟨i, q⟩ p).map fun t => -t := by
  unfold TinyFloat.transpose
  split
  · rfl
  · rw [Option.map_map]
    congr 1
    funext pow
    show (if p < q then Int.tdiv (-i) pow else -i * pow)
        = -(if p < q then Int.tdiv i pow else i * pow)
    split
    · exact Int.neg_tdiv i pow
    · exact neg_mul i pow

/-- Converting a zero-magnitude operand either throws or yields zero. -/
theorem argument_of_zero (a b : TinyFloat) (h : b.int = 0) :
    a.argument b = none ∨ a.argument b = some 0 := by
  unfold TinyFloat.argument TinyFloat.withPresicion
  split
  · right
    exact congrArg some h
  · rcases transpose_of_int_zero b a.precision h with ht | ht
    · left
      rw [ht]
      rfl
    · right
      rw [ht]
      rfl

theorem argument_same_precision (a b : TinyFloat)
    (h : b.precision = a.precision) : a.argument b = some b.int := by
  unfold TinyFloat.argument TinyFloat.withPresicion
  rw [if_pos h]
  rfl

theorem natStr_zero : natStr 0 = "0" := rfl

/-- Rendering an absolute value of zero gives `"0."` then `p` zeros. -/
theorem absRender_zero (p : Nat) :
    absRender 0 p = ⟨'0' :: '.' :: List.replicate p '0'⟩ := by
  unfold absRender
  simp only [Nat.zero_mod, Nat.zero_div, Nat.zero_add, natStr_zero]
  rw [if_neg (by decide), Nat.add_zero, Nat.zero_mod, Nat.zero_div, natStr_zero]
  unfold padStart strTake
  have hdata : ("0" : String).data = ['0'] := rfl
  rw [hdata]
  simp only [List.length_singleton]
  rw [show p + 1 - 1 = p from rfl]
  rw [show (List.replicate p '0' ++ ['0']).take p = List.replicate p '0' by
    conv in List.take p => rw [show p = (List.replicate p '0').length by simp]
    exact List.take_left _ _]
  rfl

theorem renderSigned_zero (p : Nat) :
    renderSigned 0 p = ⟨'0' :: '.' :: List.replicate p '0'⟩ := by
  unfold renderSigned
  rw [if_neg (by decide)]
  rw [show (0 : Int).natAbs = 0 from rfl, absRender_zero]
  rfl

theorem decValD_cons_digit {c : Char} (acc : Nat) (l : List Char)
    (h : '0' ≤ c ∧ c ≤ '9') :
    decValD acc (c :: l) = decValD (acc * 10 + decDigitVal c) l := by
  rw [decValD, if_pos h]

/-- The all-zero rendering of zero has exact decimal value zero. -/
theorem decListNum_zero_render (p : Nat) :
    decListNum ('0' :: '.' :: List.replicate p '0') = 0 := by
  unfold decListNum
  rw [List.takeWhile_cons, List.dropWhile_cons]
  rw [if_pos (by simp), if_pos (by simp)]
  rw [List.takeWhile_cons, List.dropWhile_cons]
  rw [if_neg (by simp), if_neg (by simp)]
  simp only [List.drop_succ_cons, List.drop_zero]
  rw [decValD_cons_digit 0 [] (by decide)]
  rw [show decValD (0 * 10 + decDigitVal '0') [] = 0 from by decide]
  rw [decValD_replicate_zero]
  ring

theorem decValGo_eq_decValD {l : List Char} (acc : Nat)
    (h : ∀ c ∈ l, '0' ≤ c ∧ c ≤ '9') :
    decValGo acc l = some (decValD acc l) := by
  induction l generalizing acc with
  | nil => rfl
  | cons c cs ih =>
      have hc := h c (List.mem_cons_self c cs)
      rw [decValGo, if_pos hc, decValD, if_pos hc]
      exact ih _ fun d hd => h d (List.mem_cons_of_mem c hd)

theorem digit_not_ws {c : Char} (h : '0' ≤ c ∧ c ≤ '9') : isJsWs c = false := by
  have h1 : (' ' : Char) < c := lt_of_lt_of_le (by decide) h.1
  have h2 : ('\t' : Char) < c := lt_of_lt_of_le (by decide) h.1
  have h3 : ('\n' : Char) < c := lt_of_lt_of_le (by decide) h.1
  have h4 : ('\r' : Char) < c := lt_of_lt_of_le (by decide) h.1
  unfold isJsWs
  simp [ne_of_gt h1, ne_of_gt h2, ne_of_gt h3, ne_of_gt h4]

theorem digit_ne {c c' : Char} (h : '0' ≤ c ∧ c ≤ '9')
    (h' : ¬ ('0' ≤ c' ∧ c' ≤ '9')) : c ≠ c' := fun he => h' (he ▸ h)

/-- `BigInt` on a nonempty all-decimal-digit string yields its value. -/
theorem jsBigInt_of_digits {l : List Char}
    (h : ∀ c ∈ l, '0' ≤ c ∧ c ≤ '9') (hne : l ≠ []) :
    jsBigInt ⟨l⟩ = some ((decValD 0 l : Nat) : Int) := by
  unfold jsBigInt
  have hdata : (String.mk l).data = l := rfl
  rw [hdata, trimWs_eq_self fun c hc => digit_not_ws (h c hc)]
  rw [if_neg (by simp [List.isEmpty_iff, hne])]
  have hhead : ∀ c', ¬ ('0' ≤ c' ∧ c' ≤ '9') → ¬ l.head? = some c' := by
    intro c' hc' he
    exact digit_ne (h c' (List.mem_of_mem_head? (Option.mem_def.mpr he))) hc' rfl
  rw [if_neg (hhead '-' (by decide)), if_neg (hhead '+' (by decide))]
  have htake : ∀ c', ¬ ('0' ≤ c' ∧ c' ≤ '9') → ∀ hd : Char,
      ¬ l.take 2 = [hd, c'] := by
    intro c' hc' hd he
    have : c' ∈ l.take 2 := by rw [he]; simp
    exact digit_ne (h c' (List.take_subset _ _ this)) hc' rfl
  rw [if_neg (by simp [htake 'x' (by decide), htake 'X' (by decide)])]
  rw [if_neg (by simp [htake 'o' (by decide), htake 'O' (by decide)])]
  rw [if_neg (by simp [htake 'b' (by decide), htake 'B' (by decide)])]
  unfold decVal
  rw [if_neg (by simp [List.isEmpty_iff, hne]), decValGo_eq_decValD 0 h]
  rfl

theorem replicate_zero_digits {p : Nat} {c : Char}
    (h : c ∈ List.replicate p '0') : '0' ≤ c ∧ c ≤ '9' := by
  rcases List.eq_of_mem_replicate h with rfl
  decide

/-- `parse("1", p)` yields exactly `10 ^ (p + 1)`: the representation is
the value scaled by ten to the precision plus the guard digit. -/
theorem parse_one (p : Nat) :
    TinyFloat.parse ("1") p = some ((10 : Int) ^ (p + 1)) := by
  rw [show TinyFloat.parse ("1") p
      = jsBigInt ⟨'1' :: List.replicate (p + 1) '0'⟩ from rfl]
  rw [jsBigInt_of_digits ?hdig (by simp)]
  · rw [decValD_cons_digit _ _ (by decide)]
    rw [show (0 * 10 + decDigitVal '1') = 1 from by decide]
    rw [decValD_replicate_zero]
    push_cast
    ring_nf
  case hdig =>
    intro c hc
    rcases List.mem_cons.mp hc with rfl | hm
    · decide
    · exact replicate_zero_digits hm

/-- `parse("0.5", p)` yields `5 * 10 ^ p`: half a unit, scaled by ten to
the precision plus the guard digit. -/
theorem parse_half (p : Nat) :
    TinyFloat.parse ("0.5") p = some ((5 : Int) * 10 ^ p) := by
  rw [show TinyFloat.parse ("0.5") p
      = jsBigInt ⟨['0'] ++ ('5' :: List.take p ([] : List Char))
          ++ List.replicate (p + 1 - ('5' :: List.take p ([] : List Char)).length) '0'⟩
      from rfl]
  rw [List.take_nil]
  rw [show ['0'] ++ ('5' :: ([] : List Char))
        ++ List.replicate (p + 1 - ('5' :: ([] : List Char)).length) '0'
      = '0' :: '5' :: List.replicate p '0' from by simp]
  rw [jsBigInt_of_digits ?hdig (by simp)]
  · rw [decValD_cons_digit _ _ (by decide), decValD_cons_digit _ _ (by decide)]
    rw [show (0 * 10 + decDigitVal '0') * 10 + decDigitVal '5' = 5 from by decide]
    rw [decValD_replicate_zero]
    push_cast
    ring_nf
  case hdig =>
    intro c hc
    rcases List.mem_cons.mp hc with rfl | hm
    · decide
    rcases List.mem_cons.mp hm with rfl | hm'
    · decide
    · exact replicate_zero_digits hm'

theorem point_notin_natStr {n : Nat} : '.' ∉ (natStr n).data := fun h =>
  absurd (natStr_isDigit h) (by decide)

theorem point_notin_frac {m k p : Nat} :
    '.' ∉ (strTake (padStart (natStr m) k '0') p).data := by
  intro h
  have h5 := List.take_subset _ _ h
  unfold padStart at h5
  rcases List.mem_append.mp h5 with h6 | h7
  · exact absurd (List.eq_of_mem_replicate h6) (by decide)
  · exact point_notin_natStr h7

theorem count_point_absRender (a p : Nat) : ((absRender a p).data.count '.') = 1 := by
  unfold absRender
  rw [strData_append, strData_append, List.count_append, List.count_append]
  rw [List.count_eq_zero.mpr point_notin_natStr,
    List.count_eq_zero.mpr point_notin_frac]
  rfl

theorem count_point_renderSigned (t : Int) (p : Nat) :
    (((renderSigned t p).data.count '.') = 1) := by
  unfold renderSigned
  rw [strData_append, List.count_append, count_point_absRender]
  split <;> rfl

theorem getLast_point_renderSigned (t : Int) :
    ((renderSigned t 0).data.getLast? = some '.') := by
  unfold renderSigned absRender
  rw [strData_append, strData_append, strData_append]
  rw [show ∀ s : String, (strTake s 0).data = [] from fun s => rfl]
  rw [List.append_nil, show ("." : String).data = ['.'] from rfl]
  rw [← List.append_assoc]
  exact List.getLast?_concat _

/-- Negating the transposed magnitude negates the rendered value. -/
theorem render_neg_value (t : Int) (p : Nat) :
    decStringToRat (renderSigned (-t) p) = -decStringToRat (renderSigned t p) := by
  unfold renderSigned
  have hempty : ∀ s : String, ("" : String) ++ s = s := fun s => by
    cases s; rfl
  rcases lt_trichotomy t 0 with hlt | heq | hgt
  · rw [if_neg (by omega), if_pos hlt, Int.natAbs_neg, hempty]
    rw [decStringToRat_neg_absRender, neg_neg]
  · subst heq
    rw [neg_zero]
    have hz : decStringToRat ((if (0 : Int) < 0 then "-" else "")
        ++ absRender (0 : Int).natAbs p) = 0 := by
      rw [if_neg (by omega), hempty, show (0 : Int).natAbs = 0 from rfl, absRender_zero]
      unfold decStringToRat
      rw [if_neg (by simp)]
      rw [show (String.mk ('0' :: '.' :: List.replicate p '0')).data
          = '0' :: '.' :: List.replicate p '0' from rfl]
      rw [decListNum_zero_render]
      simp
    rw [hz, neg_zero]
  · rw [if_pos (by omega), if_neg (by omega), Int.natAbs_neg]
    rw [hempty, decStringToRat_neg_absRender]

theorem decStringToRat_eval_pos (s : String) (n d : Nat)
    (hh : ¬ s.data.head? = some '-') (hn : decListNum s.data = n)
    (hd : decListDen s.data = d) :
    decStringToRat s = (n : ℚ) / (d : ℚ) := by
  unfold decStringToRat
  rw [if_neg hh, hn, hd]

theorem decStringToRat_eval_neg (s : String) (n d : Nat)
    (hh : s.data.head? = some '-') (hn : decListNum s.data.tail = n)
    (hd : decListDen s.data.tail = d) :
    decStringToRat s = -((n : ℚ) / (d : ℚ)) := by
  unfold decStringToRat
  rw [if_pos hh, hn, hd]

theorem parse_abc (p : Nat) : TinyFloat.parse ("abc") p = none := by
  rw [show TinyFloat.parse ("abc") p
      = jsBigInt ⟨'a' :: 'b' :: 'c' :: List.replicate (p + 1) '0'⟩ from rfl]
  unfold jsBigInt
  rw [trimWs_eq_self ?hws]
  · rw [if_neg (by simp)]
    rw [if_neg (by simp), if_neg (by simp)]
    rw [if_neg (by simp [List.take_succ_cons]), if_neg (by simp [List.take_succ_cons]),
      if_neg (by simp [List.take_succ_cons])]
    rw [show decVal ('a' :: 'b' :: 'c' :: List.replicate (p + 1) '0') = none from by
      unfold decVal
      rw [if_neg (by simp)]
      rw [show decValGo 0 ('a' :: 'b' :: 'c' :: List.replicate (p + 1) '0') = none from by
        rw [decValGo, if_neg (by decide)]]]
    rfl
  case hws =>
    intro c hc
    rcases List.mem_cons.mp hc with rfl | hc
    · decide
    rcases List.mem_cons.mp hc with rfl | hc
    · decide
    rcases List.mem_cons.mp hc with rfl | hc
    · decide
    · exact digit_not_ws (replicate_zero_digits hc)

/-! ## The claims -/

/-- Claim C1: for every left-hand Decimal Value and every zero-valued
right-hand operand, `div` and `mod` signal the division-by-zero error
(surfaced to the caller as the operation's error outcome, never a
seemingly valid Decimal Value), regardless of the left-hand magnitude. -/
theorem claim_C1_div_mod_by_zero (a b : TinyFloat) (h : b.int = 0) :
    a.div b = none ∧ a.mod b = none := by
  rcases argument_of_zero a b h with ha | ha
  · constructor
    · unfold TinyFloat.div
      rw [ha]
      cases jsPow10 (a.precision + 1) <;> rfl
    · unfold TinyFloat.mod
      rw [ha]
      rfl
  · constructor
    · unfold TinyFloat.div
      rw [ha]
      cases jsPow10 (a.precision + 1) <;> rfl
    · unfold TinyFloat.mod
      rw [ha]
      rfl

/-- Witness for C1 at a concrete input: dividing `0.05` (precision 2) by
the zero value of precision 9 errors on both `div` and `mod`. -/
theorem claim_C1_witness :
    TinyFloat.div ⟨5, 2⟩ ⟨0, 9⟩ = none ∧ TinyFloat.mod ⟨5, 2⟩ ⟨0, 9⟩ = none :=
  claim_C1_div_mod_by_zero ⟨5, 2⟩ ⟨0, 9⟩ rfl

/-- Claim C2: every binary arithmetic operation first converts a
Decimal-Value right operand to the left operand's scale via
`withPresicion`, and every result it produces carries the left operand's
scale; in the spec's example, a scale-2 left operand added to a scale-9
right operand yields a scale-2 result with the right operand cut down to
the scale-2 representation before summing, not the reverse. -/
theorem claim_C2_left_scale_wins (a b : TinyFloat) :
    a.add b = ((b.withPresicion a.precision).map fun c => ⟨a.int + c.int, a.precision⟩)
    ∧ a.sub b = ((b.withPresicion a.precision).map fun c => ⟨a.int - c.int, a.precision⟩)
    ∧ ((a.add b).all fun r => r.precision == a.precision) = true
    ∧ ((a.sub b).all fun r => r.precision == a.precision) = true
    ∧ ((a.mul b).all fun r => r.precision == a.precision) = true
    ∧ ((a.div b).all fun r => r.precision == a.precision) = true
    ∧ ((a.mod b).all fun r => r.precision == a.precision) = true
    ∧ TinyFloat.ofString ("0.123456789") 2 = some ⟨123, 2⟩
    ∧ TinyFloat.ofString ("0.123456789") 9 = some ⟨1234567890, 9⟩
    ∧ TinyFloat.withPresicion ⟨1234567890, 9⟩ 2 = some ⟨123, 2⟩
    ∧ TinyFloat.add ⟨123, 2⟩ ⟨1234567890, 9⟩ = some ⟨246, 2⟩
    ∧ TinyFloat.add ⟨1234567890, 9⟩ ⟨123, 2⟩ = some ⟨2464567890, 9⟩ := by
  refine ⟨?_, ?_, ?_, ?_, ?_, ?_, ?_, by decide, by decide, by decide, by decide,
    by decide⟩
  · unfold TinyFloat.add TinyFloat.argument
    rw [Option.map_map]
    rfl
  · unfold TinyFloat.sub TinyFloat.argument
    rw [Option.map_map]
    rfl
  · unfold TinyFloat.add
    cases a.argument b with
    | none => rfl
    | some x => simp [Option.all]
  · unfold TinyFloat.sub
    cases a.argument b with
    | none => rfl
    | some x => simp [Option.all]
  · unfold TinyFloat.mul
    cases a.argument b with
    | none => rfl
    | some x =>
        cases jsPow10 (a.precision + 1) with
        | none => rfl
        | some pow => simp [Option.all]
  · unfold TinyFloat.div
    cases jsPow10 (a.precision + 1) with
    | none => rfl
    | some pow =>
        cases a.argument b with
        | none => rfl
        | some d =>
            show (if d = 0 then none else _).all _ = true
            split
            · rfl
            · simp [Option.all]
  · unfold TinyFloat.mod
    cases a.argument b with
    | none => rfl
    | some d =>
        show (if d = 0 then none else _).all _ = true
        split
        · rfl
        · simp [Option.all]

/-- Claim C3: `add` and `sub` of two Decimal Values sharing a scale are
the exact magnitude sum and difference at that scale, with no rounding;
in particular `parse("0.1").add(parse("0.2"))` at the default scale
renders as `"0.3000000000000000"`, whose exact decimal value is `3 / 10`
— the same rational as the literal `0.3` — so `toNumber` returns
exactly `0.3`. -/
theorem claim_C3_add_sub_exact (i j : Int) (q : Nat) :
    TinyFloat.add ⟨i, q⟩ ⟨j, q⟩ = some ⟨i + j, q⟩
    ∧ TinyFloat.sub ⟨i, q⟩ ⟨j, q⟩ = some ⟨i - j, q⟩
    ∧ TinyFloat.ofStringD ("0.1") = some ⟨10 ^ 16, 16⟩
    ∧ TinyFloat.ofStringD ("0.2") = some ⟨2 * 10 ^ 16, 16⟩
    ∧ TinyFloat.add ⟨10 ^ 16, 16⟩ ⟨2 * 10 ^ 16, 16⟩ = some ⟨3 * 10 ^ 16, 16⟩
    ∧ TinyFloat.toStr ⟨3 * 10 ^ 16, 16⟩ = some "0.3000000000000000"
    ∧ decStringToRat ("0.3000000000000000") = 3 / 10
    ∧ decStringToRat ("0.3") = 3 / 10 := by
  refine ⟨?_, ?_, by decide, by decide, by decide, by decide, ?_, ?_⟩
  · unfold TinyFloat.add
    rw [argument_same_precision ⟨i, q⟩ ⟨j, q⟩ rfl]
    rfl
  · unfold TinyFloat.sub
    rw [argument_same_precision ⟨i, q⟩ ⟨j, q⟩ rfl]
    rfl
  · rw [decStringToRat_eval_pos ("0.3000000000000000") 3000000000000000 (10 ^ 16)
      (by decide) (by decide) (by decide)]
    push_cast
    norm_num
  · rw [decStringToRat_eval_pos ("0.3") 3 (10 ^ 1) (by decide) (by decide) (by decide)]
    push_cast
    norm_num

/-- Claim C4: rounding at rendering is round-half-away-from-zero and
symmetric in sign: negating the stored magnitude negates the exact value
of the rendered string (and throws in exactly the same cases), for every
magnitude, stored scale and requested scale; in particular `-0.5`
rendered at zero fractional digits gives `"-1."`, of value `-1`, and
`0.5` gives `"1."`, of value `1`. -/
theorem claim_C4_rounding_sign_symmetric (i : Int) (q p : Nat) :
    (TinyFloat.toStringWith ⟨-i, q⟩ p).map decStringToRat
      = (TinyFloat.toStringWith ⟨i, q⟩ p).map (fun s => -decStringToRat s)
    ∧ TinyFloat.ofString ("-0.5") 0 = some ⟨-5, 0⟩
    ∧ TinyFloat.toStr ⟨-5, 0⟩ = some "-1."
    ∧ TinyFloat.ofString ("0.5") 0 = some ⟨5, 0⟩
    ∧ TinyFloat.toStr ⟨5, 0⟩ = some "1."
    ∧ decStringToRat ("-1.") = -1
    ∧ decStringToRat ("1.") = 1 := by
  refine ⟨?_, by decide, by decide, by decide, by decide, ?_, ?_⟩
  · unfold TinyFloat.toStringWith
    rw [transpose_neg, Option.map_map, Option.map_map, Option.map_map]
    congr 1
    funext t
    exact render_neg_value t p
  · rw [decStringToRat_eval_neg ("-1.") 1 (10 ^ 0) (by decide) (by decide) (by decide)]
    norm_num
  · rw [decStringToRat_eval_pos ("1.") 1 (10 ^ 0) (by decide) (by decide) (by decide)]
    norm_num

/-- Claim C5: parsing then formatting round-trips at the default scale of
16: `parse("12.34")` followed by `toString()` reproduces
`"12.3400000000000000"`, the original digits zero-padded on the right to
exactly 16 fractional digits, and likewise for an integral literal. -/
theorem claim_C5_parse_format_roundtrip :
    TinyFloat.ofStringD ("12.34") = some ⟨1234 * 10 ^ 15, 16⟩
    ∧ TinyFloat.toStr ⟨1234 * 10 ^ 15, 16⟩ = some "12.3400000000000000"
    ∧ TinyFloat.ofStringD ("7") = some ⟨7 * 10 ^ 17, 16⟩
    ∧ TinyFloat.toStr ⟨7 * 10 ^ 17, 16⟩ = some "7.0000000000000000" := by
  refine ⟨by decide, by decide, by decide, by decide⟩

/-- Counterexample to claim C6: `new TinyFloat("-0.04", 1)` stores
magnitude `-4` and renders as `"-0.0"` — every rendered digit is zero and
the integer part is zero, yet the output carries a leading `-`. -/
theorem claim_C6_counterexample :
    TinyFloat.ofString ("-0.04") 1 = some ⟨-4, 1⟩
    ∧ TinyFloat.toStr ⟨-4, 1⟩ = some "-0.0" := by
  refine ⟨by decide, by decide⟩

/-- Claim C6 as amended: a Decimal Value whose magnitude is exactly zero
renders without a leading `-`, as `"0."` followed by zeros, whenever it
renders at all — in particular always under its own precision, and also
when produced by subtracting two equal (possibly negative) values; only a
nonzero negative magnitude whose rendered digits are all zero still
renders with a leading `-`. -/
theorem claim_C6_zero_renders_unsigned (a : TinyFloat) (q p : Nat) :
    ((TinyFloat.toStringWith ⟨0, q⟩ p).all
        fun s => s == String.mk ('0' :: '.' :: List.replicate p '0')) = true
    ∧ a.sub a = some ⟨0, a.precision⟩
    ∧ TinyFloat.toStr ⟨0, q⟩ = some ⟨'0' :: '.' :: List.replicate q '0'⟩
    ∧ ((a.sub a).bind TinyFloat.toStr)
        = some ⟨'0' :: '.' :: List.replicate a.precision '0'⟩ := by
  have hsub : a.sub a = some ⟨0, a.precision⟩ := by
    unfold TinyFloat.sub
    rw [argument_same_precision a a rfl]
    exact congrArg some
      (show (⟨a.int - a.int, a.precision⟩ : TinyFloat) = ⟨0, a.precision⟩ from by
        rw [sub_self])
  have htoStr : ∀ q' : Nat,
      TinyFloat.toStr ⟨0, q'⟩ = some ⟨'0' :: '.' :: List.replicate q' '0'⟩ := by
    intro q'
    unfold TinyFloat.toStr TinyFloat.toStringWith
    rw [transpose_self]
    show some (renderSigned 0 q') = _
    rw [renderSigned_zero]
  refine ⟨?_, hsub, htoStr q, ?_⟩
  · unfold TinyFloat.toStringWith
    rcases transpose_of_int_zero ⟨0, q⟩ p rfl with ht | ht
    · rw [ht]
      rfl
    · rw [ht]
      show ((some (renderSigned 0 p)).all _) = true
      rw [renderSigned_zero]
      simp [Option.all]
  · rw [hsub]
    exact htoStr a.precision

/-- Counterexample to claim C7: parsing the empty string does not signal
an error — the constructor treats it as absent (falsy) input and returns
the seemingly valid zero value. -/
theorem claim_C7_counterexample :
    TinyFloat.ofString ("") 16 = some ⟨0, 16⟩ := by decide

/-- Claim C7 as amended: a literal with non-digit characters (`"abc"`)
or an extra decimal point within the retained digits (`"1.2.3"` at the
default precision) makes the underlying BigInt constructor throw, which
surfaces to the caller as an error and never produces a Decimal Value;
the empty string, however, is treated as absent input and yields the
zero value rather than an error. -/
theorem claim_C7_malformed_literals (p : Nat) :
    TinyFloat.ofString ("abc") p = none
    ∧ TinyFloat.parse ("abc") p = none
    ∧ TinyFloat.ofString ("1.2.3") 16 = none
    ∧ TinyFloat.ofString ("") p = some ⟨0, p⟩ := by
  refine ⟨?_, parse_abc p, by decide, ?_⟩
  · unfold TinyFloat.ofString
    rw [if_neg (by decide), parse_abc p]
    rfl
  · unfold TinyFloat.ofString
    rw [if_pos (by decide)]

/-- Counterexample to claim C8: rescaling upward is not always an exact
multiplication by a power of ten. The scale factor is the float64
`10 ** gap`, so upscaling `0.1` (magnitude 1 at precision 0) to precision
23 multiplies by `BigInt(10 ** 23) = 99999999999999991611392`, not by
`10 ^ 23`, and the denoted value is not preserved. -/
theorem claim_C8_counterexample :
    TinyFloat.withPresicion ⟨1, 0⟩ 23 = some ⟨99999999999999991611392, 23⟩
    ∧ (99999999999999991611392 : Int) ≠ 1 * 10 ^ 23
    ∧ TinyFloat.val ⟨99999999999999991611392, 23⟩ ≠ TinyFloat.val ⟨1, 0⟩ := by
  refine ⟨by decide, by decide, ?_⟩
  unfold TinyFloat.val
  intro h
  norm_num at h

/-- Claim C8 as amended: `withPresicion` returns the instance itself,
unchanged, when the new scale equals the current one; for scale gaps of
at most 22 — where the float64 power of ten is exact — rescaling upward
multiplies the magnitude by `10 ^ gap` exactly, preserving the denoted
rational value, and rescaling downward divides the magnitude by
`10 ^ gap` (truncating at the new guard-digit boundary, rounding being
resolved at rendering, as in `0.129` at precision 16 rescaled to 2
rendering as `"0.13"`); for a gap of 23 or more the float64 factor
deviates from the exact power, and from 309 on the operation throws. -/
theorem claim_C8_with_precision (tf : TinyFloat) (p : Nat) :
    tf.withPresicion tf.precision = some tf
    ∧ (tf.precision < p → p - tf.precision ≤ 22 →
        tf.withPresicion p = some ⟨tf.int * 10 ^ (p - tf.precision), p⟩
        ∧ TinyFloat.val ⟨tf.int * 10 ^ (p - tf.precision), p⟩ = tf.val)
    ∧ (p < tf.precision → tf.precision - p ≤ 22 →
        tf.withPresicion p = some ⟨Int.tdiv tf.int (10 ^ (tf.precision - p)), p⟩)
    ∧ (309 ≤ p - tf.precision → tf.withPresicion p = none)
    ∧ TinyFloat.withPresicion ⟨129 * 10 ^ 14, 16⟩ 2 = some ⟨129, 2⟩
    ∧ TinyFloat.toStr ⟨129, 2⟩ = some "0.13" := by
  refine ⟨?_, ?_, ?_, ?_, by decide, by decide⟩
  · unfold TinyFloat.withPresicion
    rw [if_pos rfl]
  · intro h h22
    have heq : tf.withPresicion p = some ⟨tf.int * 10 ^ (p - tf.precision), p⟩ := by
      unfold TinyFloat.withPresicion TinyFloat.transpose
      rw [if_neg (by omega), if_neg (by omega)]
      rw [show tf.precision - p + (p - tf.precision) = p - tf.precision from by omega]
      rw [jsPow10_small h22]
      rw [show ∀ pw : Int, Option.map (fun pow => if p < tf.precision
          then Int.tdiv tf.int pow else tf.int * pow) (some pw)
          = some (if p < tf.precision then Int.tdiv tf.int pw else tf.int * pw)
        from fun pw => rfl]
      rw [if_neg (by omega)]
      rfl
    refine ⟨heq, ?_⟩
    unfold TinyFloat.val
    show ((tf.int * 10 ^ (p - tf.precision) : Int) : ℚ) / 10 ^ (p + 1) = _
    rw [show p + 1 = (p - tf.precision) + (tf.precision + 1) from by omega, pow_add]
    push_cast
    have h10 : ((10 : ℚ) ^ (p - tf.precision)) ≠ 0 := by positivity
    field_simp
    ring
  · intro h h22
    unfold TinyFloat.withPresicion TinyFloat.transpose
    rw [if_neg (by omega), if_neg (by omega)]
    rw [show tf.precision - p + (p - tf.precision) = tf.precision - p from by omega]
    rw [jsPow10_small h22]
    rw [show ∀ pw : Int, Option.map (fun pow => if p < tf.precision
        then Int.tdiv tf.int pow else tf.int * pow) (some pw)
        = some (if p < tf.precision then Int.tdiv tf.int pw else tf.int * pw)
      from fun pw => rfl]
    rw [if_pos h]
    rfl
  · intro h
    unfold TinyFloat.withPresicion TinyFloat.transpose
    rw [if_neg (by omega), if_neg (by omega)]
    rw [show tf.precision - p + (p - tf.precision) = p - tf.precision from by omega]
    rw [jsPow10_none h]
    rfl

/-- Witness for C8 at concrete inputs, one per hypothesis: equal scale is
a no-op, upscaling 2 to 4 multiplies by `10 ^ 2` and keeps the value,
downscaling 4 to 2 divides by `10 ^ 2`, and a gap of 400 throws. -/
theorem claim_C8_witness :
    TinyFloat.withPresicion ⟨123, 5⟩ 5 = some ⟨123, 5⟩
    ∧ (TinyFloat.withPresicion ⟨123, 2⟩ 4 = some ⟨123 * 10 ^ (4 - 2), 4⟩
        ∧ TinyFloat.val ⟨123 * 10 ^ (4 - 2), 4⟩ = TinyFloat.val ⟨123, 2⟩)
    ∧ TinyFloat.withPresicion ⟨12345, 4⟩ 2 = some ⟨Int.tdiv 12345 (10 ^ (4 - 2)), 2⟩
    ∧ TinyFloat.withPresicion ⟨1, 0⟩ 400 = none :=
  ⟨(claim_C8_with_precision ⟨123, 5⟩ 0).1,
   (claim_C8_with_precision ⟨123, 2⟩ 4).2.1 (by decide) (by decide),
   (claim_C8_with_precision ⟨12345, 4⟩ 2).2.2.1 (by decide) (by decide),
   (claim_C8_with_precision ⟨1, 0⟩ 400).2.2.2.1 (by decide)⟩

/-- Counterexample to claim C9: the scaled-representation invariant does
not hold at every precision, because `mul` and `div` scale by the float64
`BigInt(10 ** (precision + 1))`, not by the exact power. At precision 22
the factor is `99999999999999991611392 ≠ 10 ^ 23`, and dividing by a value
equal to one unit of the representation yields magnitude 0 where the
claimed exact-scaling formula yields 1. -/
theorem claim_C9_counterexample :
    jsPow10 (22 + 1) = some 99999999999999991611392
    ∧ (99999999999999991611392 : Int) ≠ 10 ^ (22 + 1)
    ∧ TinyFloat.div ⟨1, 22⟩ ⟨10 ^ 23, 22⟩ = some ⟨0, 22⟩
    ∧ Int.tdiv ((1 : Int) * 10 ^ (22 + 1)) (10 ^ 23) = 1 := by
  refine ⟨by decide, by decide, by decide, by decide⟩

/-- Claim C9 as amended: the internal BigInt is the value scaled by
`10 ^ (precision + 1)` — one guard digit beyond the nominal precision —
wherever the code's float64 power of ten is exact: parsing `1` stores
`10 ^ (p + 1)` and parsing `0.5` stores `5 * 10 ^ p` at every precision
`p` (parsing scales by string padding, exactly); for precisions up to 21,
`mul` divides the product by `10 ^ (precision + 1)` and `div` scales the
dividend by it; `mod` is the plain BigInt remainder at every precision;
from precision 308 on, `mul` and `div` throw; parsing keeps exactly
`p + 1` fractional digits (`0.123456789` at precision 2 stores `123`);
and rendering consumes the guard digit half-up at the nominal scale
(`1.5` at precision 0 renders `"2."`, `1.4` renders `"1."`). -/
theorem claim_C9_guard_digit_invariant (p : Nat) (i j : Int) (q : Nat) :
    TinyFloat.parse ("1") p = some ((10 : Int) ^ (p + 1))
    ∧ TinyFloat.parse ("0.5") p = some ((5 : Int) * 10 ^ p)
    ∧ (q ≤ 21 →
        TinyFloat.mul ⟨i, q⟩ ⟨j, q⟩ = some ⟨Int.tdiv (i * j) (10 ^ (q + 1)), q⟩)
    ∧ (q ≤ 21 → TinyFloat.div ⟨i, q⟩ ⟨j, q⟩
        = (if j = 0 then none else some ⟨Int.tdiv (i * 10 ^ (q + 1)) j, q⟩))
    ∧ TinyFloat.mod ⟨i, q⟩ ⟨j, q⟩ = (if j = 0 then none else some ⟨Int.tmod i j, q⟩)
    ∧ (308 ≤ q →
        TinyFloat.mul ⟨i, q⟩ ⟨j, q⟩ = none ∧ TinyFloat.div ⟨i, q⟩ ⟨j, q⟩ = none)
    ∧ TinyFloat.parse ("0.123456789") 2 = some 123
    ∧ TinyFloat.toStr ⟨15, 0⟩ = some "2."
    ∧ TinyFloat.toStr ⟨14, 0⟩ = some "1." := by
  refine ⟨parse_one p, parse_half p, ?_, ?_, ?_, ?_, by decide, by decide, by decide⟩
  · intro hq
    unfold TinyFloat.mul
    rw [argument_same_precision ⟨i, q⟩ ⟨j, q⟩ rfl]
    show (jsPow10 (q + 1)).map _ = _
    rw [jsPow10_small (by omega)]
    rfl
  · intro hq
    unfold TinyFloat.div
    rw [argument_same_precision ⟨i, q⟩ ⟨j, q⟩ rfl]
    show (jsPow10 (q + 1)).bind _ = _
    rw [jsPow10_small (by omega)]
    rfl
  · unfold TinyFloat.mod
    rw [argument_same_precision ⟨i, q⟩ ⟨j, q⟩ rfl]
    rfl
  · intro hq
    constructor
    · unfold TinyFloat.mul
      rw [argument_same_precision ⟨i, q⟩ ⟨j, q⟩ rfl]
      show (jsPow10 (q + 1)).map _ = _
      rw [jsPow10_none (by omega)]
      rfl
    · unfold TinyFloat.div
      show (jsPow10 (q + 1)).bind _ = _
      rw [jsPow10_none (by omega)]
      rfl

/-- Witness for C9 at concrete inputs: the exact scale factor at
precision 3 for `mul` and `div`, and the thrown factor at precision 308. -/
theorem claim_C9_witness :
    TinyFloat.mul ⟨7, 3⟩ ⟨22, 3⟩ = some ⟨Int.tdiv (7 * 22) (10 ^ (3 + 1)), 3⟩
    ∧ TinyFloat.div ⟨7, 3⟩ ⟨22, 3⟩
        = (if (22 : Int) = 0 then none else some ⟨Int.tdiv (7 * 10 ^ (3 + 1)) 22, 3⟩)
    ∧ (TinyFloat.mul ⟨7, 308⟩ ⟨22, 308⟩ = none
        ∧ TinyFloat.div ⟨7, 308⟩ ⟨22, 308⟩ = none) :=
  ⟨(claim_C9_guard_digit_invariant 0 7 22 3).2.2.1 (by decide),
   (claim_C9_guard_digit_invariant 0 7 22 3).2.2.2.1 (by decide),
   (claim_C9_guard_digit_invariant 0 7 22 308).2.2.2.2.2.1 (by decide)⟩

/-- Claim C10: the rendered string contains exactly one decimal point,
and at requested scale zero the fractional part is empty so the output
ends with a trailing `'.'` — both whenever `toString` renders at all,
and `toString()` at the instance's own precision always renders;
e.g. `"-1."` for `-0.5` rendered at scale 0. -/
theorem claim_C10_single_point (tf : TinyFloat) (p : Nat) :
    ((tf.toStringWith p).all fun s => s.data.count '.' == 1) = true
    ∧ ((tf.toStringWith 0).all fun s => s.data.getLast? == some '.') = true
    ∧ (tf.toStr).isSome = true
    ∧ TinyFloat.ofString ("-0.5") 0 = some ⟨-5, 0⟩
    ∧ TinyFloat.toStr ⟨-5, 0⟩ = some "-1." := by
  refine ⟨?_, ?_, ?_, by decide, by decide⟩
  · unfold TinyFloat.toStringWith
    cases tf.transpose p with
    | none => rfl
    | some t =>
        show ((some (renderSigned t p)).all _) = true
        simp [Option.all, count_point_renderSigned]
  · unfold TinyFloat.toStringWith
    cases tf.transpose 0 with
    | none => rfl
    | some t =>
        show ((some (renderSigned t 0)).all _) = true
        simp [Option.all, getLast_point_renderSigned]
  · unfold TinyFloat.toStr TinyFloat.toStringWith
    rw [transpose_self]
    rfl
